import Mathlib

/-!
Verification of the text-to-JSON-Schema generator in `app.py`
(`analizar_texto_y_generar_schema`, `detectar_campos_por_palabras_clave`)
and of the spec's sentence-aware chunker.

Strings are modelled as `List Char`.  Python's `str.lower`, `\w`, `\s` and
`str.split()` are modelled on their ASCII fragment (the inputs the app works
on are ASCII); the `re` module calls are modelled by a small backtracking
regular-expression engine (`reMatch`) whose alternative/greedy priorities and
`finditer`/`search` driver mirror CPython's `re` semantics for the patterns
that occur in the source.
-/

set_option maxRecDepth 200000

namespace CreadorJson

abbrev Str := List Char

/-- Python `str.lower()` (ASCII fragment), applied characterwise. -/
def pyLower (s : Str) : Str := s.map Char.toLower

/-- Python whitespace characters (ASCII fragment of `str.split()` / regex `\s`). -/
def pySpace (c : Char) : Bool :=
  c = ' ' || c = '\t' || c = '\n' || c = '\r' || c = '\x0b' || c = '\x0c'

/-- Regex `\w` (ASCII fragment): letters, digits, underscore. -/
def isWordChar (c : Char) : Bool := c.isAlpha || c.isDigit || c = '_'

/-- Word-char test lifted to the optional characters at the edges of a match. -/
def isWo : Option Char → Bool
  | none => false
  | some c => isWordChar c

/-- `\b`: between the previous character and the head of the rest,
exactly one side is a word character. -/
def atBoundary (prev : Option Char) (rest : Str) : Bool :=
  isWo prev != isWo rest.head?

/-- The last character of `prev ++ b`, as tracked by the matcher. -/
def lastOr (prev : Option Char) (b : Str) : Option Char :=
  match b.getLast? with
  | some c => some c
  | none => prev

/-- Python `str.split()`: split on runs of whitespace, no empty words.
`cur` holds the (reversed) word being accumulated. -/
def splitWordsAux : Str → Str → List Str
  | cur, [] => if cur.isEmpty then [] else [cur.reverse]
  | cur, c :: cs =>
    if pySpace c then
      if cur.isEmpty then splitWordsAux [] cs else cur.reverse :: splitWordsAux [] cs
    else splitWordsAux (c :: cur) cs

def splitWords (s : Str) : List Str := splitWordsAux [] s

/-! ### A small backtracking regex engine

Just the constructs used by `app.py`:
character classes with greedy `*` and `?`, literal strings, sequencing,
ordered alternation, numbered capture groups and the word boundary `\b`. -/

inductive RE where
  | eps : RE
  | cls (p : Char → Bool) : RE
  | clsStar (p : Char → Bool) : RE
  | clsOpt (p : Char → Bool) : RE
  | str (s : Str) : RE
  | seq (a b : RE) : RE
  | alt (a b : RE) : RE
  | grp (i : Nat) (r : RE) : RE
  | wordB : RE

/-- Capture groups 1 and 2 (the patterns in `app.py` have at most two). -/
abbrev Caps := Option Str × Option Str

def setCap (i : Nat) (v : Str) (c : Caps) : Caps :=
  match i with
  | 1 => (some v, c.2)
  | 2 => (c.1, some v)
  | _ => c

/-- Matcher state: character just before the remainder, remainder, captures. -/
abbrev MState := Option Char × Str × Caps

/-- Match a literal string at the front of the input. -/
def strMatch : Str → Option Char → Str → Option (Option Char × Str)
  | [], prev, rest => some (prev, rest)
  | c :: cs, _, rest =>
    match rest with
    | [] => none
    | d :: ds => if d = c then strMatch cs (some d) ds else none

/-- All ways a greedy class star can match, longest first. -/
def starMatches (p : Char → Bool) : Option Char → Str → List (Option Char × Str)
  | prev, [] => [(prev, [])]
  | prev, c :: cs =>
    if p c then starMatches p (some c) cs ++ [(prev, c :: cs)]
    else [(prev, c :: cs)]

/-- Backtracking matcher: all ways `r` can match a prefix of the input,
in CPython priority order (greedy repetition, left-first alternation). -/
def reMatch : RE → Option Char → Str → Caps → List MState
  | .eps, prev, rest, caps => [(prev, rest, caps)]
  | .cls p, _, rest, caps =>
    match rest with
    | [] => []
    | d :: ds => if p d then [(some d, ds, caps)] else []
  | .clsStar p, prev, rest, caps =>
    (starMatches p prev rest).map (fun s => (s.1, s.2, caps))
  | .clsOpt p, prev, rest, caps =>
    match rest with
    | [] => [(prev, rest, caps)]
    | d :: ds => if p d then [(some d, ds, caps), (prev, rest, caps)] else [(prev, rest, caps)]
  | .str s, prev, rest, caps =>
    match strMatch s prev rest with
    | none => []
    | some (prev', rest') => [(prev', rest', caps)]
  | .seq a b, prev, rest, caps =>
    (reMatch a prev rest caps).flatMap (fun s => reMatch b s.1 s.2.1 s.2.2)
  | .alt a b, prev, rest, caps => reMatch a prev rest caps ++ reMatch b prev rest caps
  | .grp i r, prev, rest, caps =>
    (reMatch r prev rest caps).map
      (fun s => (s.1, s.2.1, setCap i (rest.take (rest.length - s.2.1.length)) s.2.2))
  | .wordB, prev, rest, caps =>
    if atBoundary prev rest then [(prev, rest, caps)] else []

/-- First (highest-priority) match of `r` at the current position. -/
def tryMatchAt (r : RE) (prev : Option Char) (rest : Str) : Option MState :=
  match reMatch r prev rest (none, none) with
  | [] => none
  | s :: _ => some s

/-- `re.finditer`: scan left to right, non-overlapping matches, resuming after
each match (advancing one character past an empty match).  Returns the capture
groups of each match in order.  The `fuel` argument only bounds the number of
scan steps (each step consumes at least one input character, so
`rest.length + 1` steps always suffice); it keeps the recursion structural. -/
def finditerAux (r : RE) : Nat → Option Char → Str → List Caps
  | 0, _, _ => []
  | fuel + 1, prev, rest =>
    match tryMatchAt r prev rest with
    | some s =>
      if s.2.1.length < rest.length then s.2.2 :: finditerAux r fuel s.1 s.2.1
      else
        match rest with
        | [] => [s.2.2]
        | c :: cs => s.2.2 :: finditerAux r fuel (some c) cs
    | none =>
      match rest with
      | [] => []
      | c :: cs => finditerAux r fuel (some c) cs

def finditer (r : RE) (prev : Option Char) (rest : Str) : List Caps :=
  finditerAux r (rest.length + 1) prev rest

/-- `re.search`: does `r` match starting at some position? -/
def searchFrom (r : RE) : Option Char → Str → Bool
  | prev, rest =>
    !(reMatch r prev rest (none, none)).isEmpty ||
      match rest with
      | [] => false
      | c :: cs => searchFrom r (some c) cs

/-! ### The patterns of `analizar_texto_y_generar_schema` -/

/-- `\w+` -/
def wPlus : RE := .seq (.cls isWordChar) (.clsStar isWordChar)

/-- `\s+` -/
def sPlus : RE := .seq (.cls pySpace) (.clsStar pySpace)

/-- `\s*` -/
def sStar : RE := .clsStar pySpace

/-- `campo\s+(\w+)\s+\((\w+)\)` -/
def patron1 : RE :=
  .seq (.str "campo".data) (.seq sPlus (.seq (.grp 1 wPlus)
    (.seq sPlus (.seq (.cls (· = '(')) (.seq (.grp 2 wPlus) (.cls (· = ')')))))))

/-- `(\w+)\s*:\s*(\w+)` -/
def patron2 : RE :=
  .seq (.grp 1 wPlus) (.seq sStar (.seq (.cls (· = ':')) (.seq sStar (.grp 2 wPlus))))

/-- `-\s*(\w+)\s+\((\w+)\)` -/
def patron3 : RE :=
  .seq (.cls (· = '-')) (.seq sStar (.seq (.grp 1 wPlus)
    (.seq sPlus (.seq (.cls (· = '(')) (.seq (.grp 2 wPlus) (.cls (· = ')')))))))

/-- `(\w+)\s+es\s+un[ao]?\s+(\w+)` -/
def patron4 : RE :=
  .seq (.grp 1 wPlus) (.seq sPlus (.seq (.str "es".data)
    (.seq sPlus (.seq (.str "un".data) (.seq (.clsOpt (fun c => c = 'a' || c = 'o'))
      (.seq sPlus (.grp 2 wPlus)))))))

def patrones : List RE := [patron1, patron2, patron3, patron4]

/-- `match.group(1)`, `match.group(2)` of one match. -/
def extractGroups (c : Caps) : Str × Str := (c.1.getD [], c.2.getD [])

/-- The candidate `(nombre_campo, tipo_campo)` pairs produced by the four
pattern families, in pattern order (lines 64-71 of `app.py`). -/
def patternCandidates (texto_lower : Str) : List (Str × Str) :=
  patrones.flatMap (fun p => (finditer p none texto_lower).map extractGroups)

/-! ### Keyword scan (`detectar_campos_por_palabras_clave`) -/

/-- The `palabras_clave` dictionary, in insertion (= iteration) order. -/
def palabras_clave : List (Str × Str) :=
  [("nombre".data, "string".data), ("apellido".data, "string".data),
   ("direccion".data, "string".data), ("ciudad".data, "string".data),
   ("pais".data, "string".data), ("email".data, "email".data),
   ("correo".data, "email".data), ("telefono".data, "string".data),
   ("edad".data, "integer".data), ("precio".data, "number".data),
   ("cantidad".data, "integer".data), ("fecha".data, "date".data),
   ("descripcion".data, "string".data), ("titulo".data, "string".data),
   ("url".data, "url".data), ("activo".data, "boolean".data),
   ("habilitado".data, "boolean".data)]

/-- `detectar_campos_por_palabras_clave` (lines 142-180): for each dictionary
entry whose key occurs as a whole word of the lower-cased text, append a
`(nombre, tipo)` candidate. -/
def detectar_campos_por_palabras_clave (texto : Str) : List (Str × Str) :=
  let palabras := splitWords (pyLower texto)
  palabras_clave.foldl
    (fun campos kv => if palabras.contains kv.1 then campos ++ [kv] else campos) []

/-! ### Schema construction -/

/-- One entry of `schema["properties"]`: the `propiedad` dict built in the
loop at lines 105-127 (`items`, when present, is always `{"type": "string"}`;
we record its `type` field). -/
structure Propiedad where
  type : Str
  format : Option Str
  items : Option Str
  description : Str
deriving DecidableEq, Repr

/-- The returned schema dict.  `properties` is an insertion-ordered map. -/
structure Schema where
  schemaUri : Str := "http://json-schema.org/draft-07/schema#".data
  title : Str := "Schema Generado".data
  description : Str := "Schema generado automáticamente desde texto".data
  type : Str := "object".data
  properties : List (Str × Propiedad)
  required : List Str
deriving DecidableEq, Repr

/-- `tipo_mapping` (lines 78-102). -/
def tipo_mapping : List (Str × Str) :=
  [("texto".data, "string".data), ("cadena".data, "string".data),
   ("string".data, "string".data), ("str".data, "string".data),
   ("numero".data, "number".data), ("entero".data, "integer".data),
   ("int".data, "integer".data), ("integer".data, "integer".data),
   ("float".data, "number".data), ("decimal".data, "number".data),
   ("booleano".data, "boolean".data), ("bool".data, "boolean".data),
   ("boolean".data, "boolean".data), ("fecha".data, "string".data),
   ("date".data, "string".data), ("email".data, "string".data),
   ("correo".data, "string".data), ("url".data, "string".data),
   ("array".data, "array".data), ("lista".data, "array".data),
   ("arreglo".data, "array".data), ("objeto".data, "object".data),
   ("object".data, "object".data)]

/-- `re.search(rf'\b{nombre}\b.*\b(obligatorio|requerido|required)\b', texto_lower)`
(line 121).  `.` is the default-mode dot: any character except `'\n'`. -/
def reqRE (nombre : Str) : RE :=
  .seq .wordB (.seq (.str nombre) (.seq .wordB (.seq (.clsStar (· ≠ '\n'))
    (.seq .wordB (.seq (.grp 1 (.alt (.str "obligatorio".data)
      (.alt (.str "requerido".data) (.str "required".data)))) .wordB)))))

def esObligatorio (nombre : Str) (texto_lower : Str) : Bool :=
  searchFrom (reqRE nombre) none texto_lower

/-- The `propiedad` dict built for one candidate `(nombre, tipo)`
(lines 106-125). -/
def mkPropiedad (nombre tipo : Str) (texto_lower : Str) : Propiedad :=
  let tipo_json := (tipo_mapping.lookup tipo).getD "string".data
  let fmt : Option Str :=
    if tipo = "email".data ∨ tipo = "correo".data then some "email".data
    else if tipo = "fecha".data ∨ tipo = "date".data then some "date".data
    else if tipo = "url".data then some "uri".data
    else none
  let itm : Option Str :=
    if fmt = none ∧ tipo_json = "array".data then some "string".data else none
  let desc : Str :=
    if esObligatorio nombre texto_lower then
      "Campo ".data ++ nombre ++ " (obligatorio)".data
    else "Campo ".data ++ nombre
  { type := tipo_json, format := fmt, items := itm, description := desc }

/-- Python dict assignment `schema["properties"][nombre] = propiedad`:
replace in place if the key is present, else append. -/
def insertProp : List (Str × Propiedad) → Str → Propiedad → List (Str × Propiedad)
  | [], k, v => [(k, v)]
  | (k', v') :: rest, k, v =>
    if k' = k then (k', v) :: rest else (k', v') :: insertProp rest k v

/-- The list `campos_detectados` after lines 64-75: the pattern candidates,
or the keyword-scan candidates when the patterns found nothing. -/
def camposDetectados (texto : Str) : List (Str × Str) :=
  let pats := patternCandidates (pyLower texto)
  if pats.isEmpty then detectar_campos_por_palabras_clave texto else pats

/-- One iteration of the loop at lines 105-127. -/
def pasoCampo (texto_lower : Str) (acc : List (Str × Propiedad) × List Str)
    (c : Str × Str) : List (Str × Propiedad) × List Str :=
  (insertProp acc.1 c.1 (mkPropiedad c.1 c.2 texto_lower),
   if esObligatorio c.1 texto_lower then acc.2 ++ [c.1] else acc.2)

/-- The fallback property (lines 131-136). -/
def propEjemplo : Propiedad :=
  { type := "string".data, format := none, items := none,
    description := "No se detectaron campos específicos. Este es un ejemplo genérico.".data }

/-- `analizar_texto_y_generar_schema` (lines 28-139). -/
def analizar_texto_y_generar_schema (texto : Str) : Schema :=
  let texto_lower := pyLower texto
  let campos_detectados := camposDetectados texto
  let pr := campos_detectados.foldl (pasoCampo texto_lower) ([], [])
  if pr.1.isEmpty then
    { properties := [("ejemplo".data, propEjemplo)], required := ["ejemplo".data] }
  else
    { properties := pr.1, required := pr.2 }

/-! ### Declarative semantics of the matcher

`Sem r prev rest prev' rest'` says: starting after the character `prev`,
the regex `r` can match a prefix of `rest`, leaving `rest'`, the character
just before `rest'` being `prev'`.  We prove the backtracking matcher sound
and complete for it, which lets us read `re.search` results off as
decompositions of the input string. -/

inductive Sem : RE → Option Char → Str → Option Char → Str → Prop where
  | eps {prev rest} : Sem .eps prev rest prev rest
  | cls {p : Char → Bool} {d ds prev} : p d = true → Sem (.cls p) prev (d :: ds) (some d) ds
  | starNil {p prev rest} : Sem (.clsStar p) prev rest prev rest
  | starCons {p : Char → Bool} {d ds prev prev' rest'} : p d = true →
      Sem (.clsStar p) (some d) ds prev' rest' → Sem (.clsStar p) prev (d :: ds) prev' rest'
  | optNone {p prev rest} : Sem (.clsOpt p) prev rest prev rest
  | optSome {p : Char → Bool} {d ds prev} : p d = true → Sem (.clsOpt p) prev (d :: ds) (some d) ds
  | str {s prev rest prev' rest'} : strMatch s prev rest = some (prev', rest') →
      Sem (.str s) prev rest prev' rest'
  | seq {a b prev rest p1 r1 p2 r2} : Sem a prev rest p1 r1 → Sem b p1 r1 p2 r2 →
      Sem (.seq a b) prev rest p2 r2
  | altL {a b prev rest prev' rest'} : Sem a prev rest prev' rest' →
      Sem (.alt a b) prev rest prev' rest'
  | altR {a b prev rest prev' rest'} : Sem b prev rest prev' rest' →
      Sem (.alt a b) prev rest prev' rest'
  | grp {i r prev rest prev' rest'} : Sem r prev rest prev' rest' →
      Sem (.grp i r) prev rest prev' rest'
  | wordB {prev rest} : atBoundary prev rest = true → Sem .wordB prev rest prev rest

theorem mem_starMatches_sem {p : Char → Bool} :
    ∀ {rest prev prev' rest'}, (prev', rest') ∈ starMatches p prev rest →
      Sem (.clsStar p) prev rest prev' rest' := by
  intro rest
  induction rest with
  | nil =>
    intro prev prev' rest' h
    simp only [starMatches, List.mem_singleton] at h
    obtain ⟨h1, h2⟩ := Prod.mk.injEq .. ▸ h
    cases h; exact .starNil
  | cons c cs ih =>
    intro prev prev' rest' h
    simp only [starMatches] at h
    by_cases hp : p c
    · rw [if_pos hp] at h
      rcases List.mem_append.1 h with h' | h'
      · exact .starCons hp (ih h')
      · simp only [List.mem_singleton, Prod.mk.injEq] at h'
        obtain ⟨h1, h2⟩ := h'
        subst h1; subst h2; exact .starNil
    · rw [if_neg hp] at h
      simp only [List.mem_singleton, Prod.mk.injEq] at h
      obtain ⟨h1, h2⟩ := h
      subst h1; subst h2; exact .starNil

theorem sem_mem_starMatches {p : Char → Bool} {rest prev prev' rest'}
    (h : Sem (.clsStar p) prev rest prev' rest') : (prev', rest') ∈ starMatches p prev rest := by
  induction rest generalizing prev with
  | nil =>
    cases h
    · simp [starMatches]
  | cons c cs ih =>
    cases h with
    | starNil =>
      simp only [starMatches]
      split <;> simp
    | starCons hp h' =>
      simp only [starMatches, if_pos hp]
      exact List.mem_append.2 (.inl (ih h'))

/-- Soundness: every state the matcher returns is a legal match. -/
theorem reMatch_sound :
    ∀ (r : RE) {prev rest caps prev' rest' caps'},
      (prev', rest', caps') ∈ reMatch r prev rest caps → Sem r prev rest prev' rest' := by
  intro r
  induction r with
  | eps =>
    intro prev rest caps prev' rest' caps' h
    simp only [reMatch, List.mem_singleton, Prod.mk.injEq] at h
    obtain ⟨h1, h2, _⟩ := h
    subst h1; subst h2; exact .eps
  | cls p =>
    intro prev rest caps prev' rest' caps' h
    cases rest with
    | nil => simp [reMatch] at h
    | cons d ds =>
      simp only [reMatch] at h
      by_cases hp : p d
      · rw [if_pos hp] at h
        simp only [List.mem_singleton, Prod.mk.injEq] at h
        obtain ⟨h1, h2, _⟩ := h
        subst h1; subst h2; exact .cls hp
      · rw [if_neg hp] at h; cases h
  | clsStar p =>
    intro prev rest caps prev' rest' caps' h
    simp only [reMatch, List.mem_map, Prod.mk.injEq] at h
    obtain ⟨⟨pr, rs⟩, hmem, h1, h2, _⟩ := h
    subst h1; subst h2
    exact mem_starMatches_sem hmem
  | clsOpt p =>
    intro prev rest caps prev' rest' caps' h
    cases rest with
    | nil =>
      simp only [reMatch, List.mem_singleton, Prod.mk.injEq] at h
      obtain ⟨h1, h2, _⟩ := h
      subst h1; subst h2; exact .optNone
    | cons d ds =>
      simp only [reMatch] at h
      by_cases hp : p d
      · rw [if_pos hp] at h
        simp only [List.mem_cons, List.not_mem_nil, or_false, Prod.mk.injEq] at h
        rcases h with ⟨h1, h2, _⟩ | ⟨h1, h2, _⟩
        · subst h1; subst h2; exact .optSome hp
        · subst h1; subst h2; exact .optNone
      · rw [if_neg hp] at h
        simp only [List.mem_singleton, Prod.mk.injEq] at h
        obtain ⟨h1, h2, _⟩ := h
        subst h1; subst h2; exact .optNone
  | str s =>
    intro prev rest caps prev' rest' caps' h
    simp only [reMatch] at h
    cases hm : strMatch s prev rest with
    | none => rw [hm] at h; simp at h
    | some pr =>
      obtain ⟨pr', rs'⟩ := pr
      rw [hm] at h
      simp only [List.mem_singleton, Prod.mk.injEq] at h
      obtain ⟨h1, h2, _⟩ := h
      subst h1; subst h2; exact .str hm
  | seq a b iha ihb =>
    intro prev rest caps prev' rest' caps' h
    simp only [reMatch, List.mem_flatMap] at h
    obtain ⟨⟨p1, r1, c1⟩, hmem1, hmem2⟩ := h
    exact .seq (iha hmem1) (ihb hmem2)
  | alt a b iha ihb =>
    intro prev rest caps prev' rest' caps' h
    simp only [reMatch, List.mem_append] at h
    rcases h with h | h
    · exact .altL (iha h)
    · exact .altR (ihb h)
  | grp i r ih =>
    intro prev rest caps prev' rest' caps' h
    simp only [reMatch, List.mem_map, Prod.mk.injEq] at h
    obtain ⟨⟨pr, rs, cp⟩, hmem, h1, h2, _⟩ := h
    subst h1; subst h2
    exact .grp (ih hmem)
  | wordB =>
    intro prev rest caps prev' rest' caps' h
    simp only [reMatch] at h
    by_cases hb : atBoundary prev rest
    · rw [if_pos hb] at h
      simp only [List.mem_singleton, Prod.mk.injEq] at h
      obtain ⟨h1, h2, _⟩ := h
      subst h1; subst h2; exact .wordB hb
    · rw [if_neg hb] at h; cases h

/-- Completeness: every legal match is found by the matcher. -/
theorem sem_reMatch {r : RE} {prev rest prev' rest'}
    (h : Sem r prev rest prev' rest') :
    ∀ caps, ∃ caps', (prev', rest', caps') ∈ reMatch r prev rest caps := by
  induction h with
  | eps => exact fun caps => ⟨caps, by simp [reMatch]⟩
  | cls hp => exact fun caps => ⟨caps, by simp [reMatch, hp]⟩
  | starNil =>
    intro caps
    refine ⟨caps, ?_⟩
    simp only [reMatch, List.mem_map, Prod.mk.injEq]
    exact ⟨_, sem_mem_starMatches .starNil, rfl, rfl, trivial⟩
  | starCons hp hsem ih =>
    intro caps
    refine ⟨caps, ?_⟩
    simp only [reMatch, List.mem_map, Prod.mk.injEq]
    exact ⟨_, sem_mem_starMatches (.starCons hp hsem), rfl, rfl, trivial⟩
  | optNone =>
    intro caps
    refine ⟨caps, ?_⟩
    simp only [reMatch]
    split
    · simp
    · split <;> simp
  | optSome hp => exact fun caps => ⟨caps, by simp [reMatch, hp]⟩
  | str hm => exact fun caps => ⟨caps, by simp [reMatch, hm]⟩
  | seq hsa hsb iha ihb =>
    intro caps
    obtain ⟨c1, h1⟩ := iha caps
    obtain ⟨c2, h2⟩ := ihb c1
    exact ⟨c2, by simpa only [reMatch, List.mem_flatMap] using ⟨_, h1, h2⟩⟩
  | altL hs ih =>
    intro caps
    obtain ⟨c1, h1⟩ := ih caps
    exact ⟨c1, by simp only [reMatch, List.mem_append]; exact .inl h1⟩
  | altR hs ih =>
    intro caps
    obtain ⟨c1, h1⟩ := ih caps
    exact ⟨c1, by simp only [reMatch, List.mem_append]; exact .inr h1⟩
  | grp hs ih =>
    intro caps
    obtain ⟨c1, h1⟩ := ih caps
    exact ⟨_, List.mem_map_of_mem _ h1⟩
  | wordB hb => exact fun caps => ⟨caps, by simp [reMatch, hb]⟩

/-- The matcher succeeds at a position exactly when some legal match exists. -/
theorem reMatch_ne_nil_iff {r : RE} {prev rest caps} :
    reMatch r prev rest caps ≠ [] ↔ ∃ prev' rest', Sem r prev rest prev' rest' := by
  constructor
  · intro h
    match hm : reMatch r prev rest caps, h with
    | (p', r', c') :: _, _ =>
      exact ⟨p', r', reMatch_sound r (by rw [hm]; exact List.mem_cons_self ..)⟩
  · rintro ⟨prev', rest', hs⟩
    obtain ⟨c', hc⟩ := sem_reMatch hs caps
    exact List.ne_nil_of_mem hc

/-! ### Decomposition lemmas -/

theorem lastOr_eq_or (prev : Option Char) (b : Str) : lastOr prev b = b.getLast?.or prev := by
  cases h : b.getLast? <;> simp [lastOr, h]

theorem lastOr_nil (prev : Option Char) : lastOr prev [] = prev := rfl

theorem lastOr_cons (prev : Option Char) (c : Char) (a : Str) :
    lastOr prev (c :: a) = lastOr (some c) a := by
  rw [lastOr_eq_or, lastOr_eq_or, show c :: a = [c] ++ a from rfl, List.getLast?_append]
  cases h : a.getLast? <;> simp

theorem lastOr_none (a : Str) : lastOr none a = a.getLast? := by
  rw [lastOr_eq_or]; cases h : a.getLast? <;> simp

theorem lastOr_getLast (xs ys : Str) : lastOr xs.getLast? ys = (xs ++ ys).getLast? := by
  rw [lastOr_eq_or, List.getLast?_append]

/-- `re.search` succeeds iff the pattern matches at some split of the input. -/
theorem searchFrom_iff {r : RE} :
    ∀ rest prev, searchFrom r prev rest = true ↔
      ∃ a b, rest = a ++ b ∧ reMatch r (lastOr prev a) b (none, none) ≠ [] := by
  intro rest
  induction rest with
  | nil =>
    intro prev
    constructor
    · intro h
      refine ⟨[], [], rfl, ?_⟩
      simp only [searchFrom, Bool.or_false, Bool.not_eq_true', List.isEmpty_eq_false] at h
      exact h
    · rintro ⟨a, b, hab, hne⟩
      obtain ⟨ha, hb⟩ := List.append_eq_nil.1 hab.symm
      subst ha; subst hb
      simp only [searchFrom, Bool.or_false, Bool.not_eq_true', List.isEmpty_eq_false]
      exact hne
  | cons c cs ih =>
    intro prev
    have hunf : searchFrom r prev (c :: cs) =
        (!(reMatch r prev (c :: cs) (none, none)).isEmpty || searchFrom r (some c) cs) := rfl
    rw [hunf]
    constructor
    · intro h
      rcases Bool.or_eq_true .. ▸ h with h1 | h2
      · refine ⟨[], c :: cs, rfl, ?_⟩
        simpa only [Bool.not_eq_true', List.isEmpty_eq_false] using h1
      · obtain ⟨a, b, hab, hne⟩ := (ih (some c)).1 h2
        refine ⟨c :: a, b, by rw [hab]; rfl, ?_⟩
        rwa [lastOr_cons]
    · rintro ⟨a, b, hab, hne⟩
      rcases List.append_eq_cons_iff.1 hab.symm with ⟨ha, hb⟩ | ⟨a', ha, hcs⟩
      · subst ha; subst hb
        apply Bool.or_eq_true_iff.2; left
        simpa only [Bool.not_eq_true', List.isEmpty_eq_false] using hne
      · subst ha
        apply Bool.or_eq_true_iff.2; right
        refine (ih (some c)).2 ⟨a', b, hcs, ?_⟩
        rwa [lastOr_cons] at hne

theorem sem_star_decomp {p : Char → Bool} :
    ∀ rest prev prev' rest', Sem (.clsStar p) prev rest prev' rest' →
      ∃ b, rest = b ++ rest' ∧ (∀ c ∈ b, p c = true) ∧ prev' = lastOr prev b := by
  intro rest
  induction rest with
  | nil =>
    intro prev prev' rest' h
    cases h
    exact ⟨[], rfl, by simp, rfl⟩
  | cons c cs ih =>
    intro prev prev' rest' h
    cases h with
    | starNil => exact ⟨[], rfl, by simp, rfl⟩
    | starCons hp h' =>
      obtain ⟨b, hb1, hb2, hb3⟩ := ih _ _ _ h'
      refine ⟨c :: b, by rw [hb1]; rfl, ?_, by rw [lastOr_cons]; exact hb3⟩
      intro x hx
      rcases List.mem_cons.1 hx with hx | hx
      · subst hx; exact hp
      · exact hb2 x hx

theorem sem_star_intro {p : Char → Bool} :
    ∀ b prev rest', (∀ c ∈ b, p c = true) →
      Sem (.clsStar p) prev (b ++ rest') (lastOr prev b) rest' := by
  intro b
  induction b with
  | nil => intro prev rest' _; exact .starNil
  | cons c cs ih =>
    intro prev rest' hall
    rw [lastOr_cons]
    exact .starCons (hall c (List.mem_cons_self ..)) (ih _ _ (fun x hx => hall x (List.mem_cons_of_mem _ hx)))

theorem strMatch_iff :
    ∀ (s : Str) prev rest prev' rest', strMatch s prev rest = some (prev', rest') ↔
      rest = s ++ rest' ∧ prev' = lastOr prev s := by
  intro s
  induction s with
  | nil =>
    intro prev rest prev' rest'
    simp only [strMatch, Option.some.injEq, Prod.mk.injEq, List.nil_append, lastOr_nil]
    constructor
    · rintro ⟨h1, h2⟩; exact ⟨h2, h1.symm⟩
    · rintro ⟨h1, h2⟩; exact ⟨h2.symm, h1⟩
  | cons c cs ih =>
    intro prev rest prev' rest'
    cases rest with
    | nil =>
      simp only [strMatch]
      constructor
      · intro h; cases h
      · rintro ⟨h, _⟩; cases h
    | cons d ds =>
      simp only [strMatch]
      by_cases hdc : d = c
      · subst hdc
        rw [if_pos rfl, ih, lastOr_cons]
        simp only [List.cons_append, List.cons.injEq, true_and]
      · rw [if_neg hdc]
        simp only [List.cons_append, List.cons.injEq]
        constructor
        · intro h; cases h
        · rintro ⟨⟨h, _⟩, _⟩; exact absurd h hdc

theorem sem_seq_inv {a b : RE} {prev rest p2 r2} (h : Sem (.seq a b) prev rest p2 r2) :
    ∃ p1 r1, Sem a prev rest p1 r1 ∧ Sem b p1 r1 p2 r2 := by
  cases h with
  | seq h1 h2 => exact ⟨_, _, h1, h2⟩

theorem sem_wordB_inv {prev rest p' r'} (h : Sem .wordB prev rest p' r') :
    p' = prev ∧ r' = rest ∧ atBoundary prev rest = true := by
  cases h with
  | wordB hb => exact ⟨rfl, rfl, hb⟩

theorem sem_str_inv {s : Str} {prev rest p' r'} (h : Sem (.str s) prev rest p' r') :
    rest = s ++ r' ∧ p' = lastOr prev s := by
  cases h with
  | str hm => exact (strMatch_iff s prev rest p' r').1 hm

theorem sem_grp_inv {i : Nat} {r : RE} {prev rest p' r'} (h : Sem (.grp i r) prev rest p' r') :
    Sem r prev rest p' r' := by
  cases h with
  | grp h' => exact h'

theorem sem_alt_inv {a b : RE} {prev rest p' r'} (h : Sem (.alt a b) prev rest p' r') :
    Sem a prev rest p' r' ∨ Sem b prev rest p' r' := by
  cases h with
  | altL h' => exact .inl h'
  | altR h' => exact .inr h'

/-! ### Characterisation of the required-field search (line 121) -/

/-- The three keyword alternatives of the search at line 121. -/
def tokenOblig (T : Str) : Prop :=
  T = "obligatorio".data ∨ T = "requerido".data ∨ T = "required".data

/-- A word boundary between a last character on the left and a first
character on the right (the ends of the string count as non-word). -/
def boundaryB (l r : Option Char) : Prop := isWo l ≠ isWo r

instance (l r : Option Char) : Decidable (boundaryB l r) := by
  unfold boundaryB
  infer_instance

/-- How the search of line 121 actually behaves: the lower-cased text
decomposes as `a ++ n ++ b ++ T ++ c` where `T` is one of the three
obligatory keywords, `n` and `T` sit on word boundaries, and the gap `b`
between the field name and the keyword contains no newline (the `.*` of
the search does not cross line breaks). -/
def RequiredSameLine (n tl : Str) : Prop :=
  ∃ a b T c, tl = a ++ n ++ b ++ T ++ c ∧ tokenOblig T ∧ (∀ ch ∈ b, ch ≠ '\n') ∧
    boundaryB a.getLast? (n ++ b ++ T ++ c).head? ∧
    boundaryB (a ++ n).getLast? (b ++ T ++ c).head? ∧
    boundaryB (a ++ n ++ b).getLast? (T ++ c).head? ∧
    boundaryB (a ++ n ++ b ++ T).getLast? c.head?

/-- Claim 2's condition as stated: identical, except that the gap `b` is
arbitrary — the keyword would be allowed to occur anywhere in the remainder
of the text, also on a later line. -/
def RequiredAnywhere (n tl : Str) : Prop :=
  ∃ a b T c, tl = a ++ n ++ b ++ T ++ c ∧ tokenOblig T ∧
    boundaryB a.getLast? (n ++ b ++ T ++ c).head? ∧
    boundaryB (a ++ n).getLast? (b ++ T ++ c).head? ∧
    boundaryB (a ++ n ++ b).getLast? (T ++ c).head? ∧
    boundaryB (a ++ n ++ b ++ T).getLast? c.head?

theorem esObligatorio_iff (n tl : Str) :
    esObligatorio n tl = true ↔ RequiredSameLine n tl := by
  unfold esObligatorio
  rw [searchFrom_iff]
  constructor
  · rintro ⟨a, rest1, htl, hne⟩
    rw [reMatch_ne_nil_iff] at hne
    obtain ⟨pf, rf, hsem⟩ := hne
    unfold reqRE at hsem
    obtain ⟨q1, s1, hw1, h2⟩ := sem_seq_inv hsem
    obtain ⟨hq1, hs1, hb1⟩ := sem_wordB_inv hw1
    subst hq1; subst hs1
    obtain ⟨q2, s2, hstr, h3⟩ := sem_seq_inv h2
    obtain ⟨hrest1, hq2⟩ := sem_str_inv hstr
    subst hq2
    obtain ⟨q3, s3, hw2, h4⟩ := sem_seq_inv h3
    obtain ⟨hq3, hs3, hb2⟩ := sem_wordB_inv hw2
    subst hq3; subst hs3
    obtain ⟨q4, s4, hstar, h5⟩ := sem_seq_inv h4
    obtain ⟨b, hs2, hbchars, hq4⟩ := sem_star_decomp _ _ _ _ hstar
    subst hq4
    obtain ⟨q5, s5, hw3, h6⟩ := sem_seq_inv h5
    obtain ⟨hq5, hs5, hb3⟩ := sem_wordB_inv hw3
    subst hq5; subst hs5
    obtain ⟨q6, s6, hgrp, hw4⟩ := sem_seq_inv h6
    have hT : ∃ T, tokenOblig T ∧ s5 = T ++ s6 ∧
        q6 = lastOr (lastOr (lastOr (lastOr none a) n) b) T := by
      rcases sem_alt_inv (sem_grp_inv hgrp) with h | h
      · obtain ⟨h1', h2'⟩ := sem_str_inv h
        exact ⟨_, .inl rfl, h1', h2'⟩
      · rcases sem_alt_inv h with h | h
        · obtain ⟨h1', h2'⟩ := sem_str_inv h
          exact ⟨_, .inr (.inl rfl), h1', h2'⟩
        · obtain ⟨h1', h2'⟩ := sem_str_inv h
          exact ⟨_, .inr (.inr rfl), h1', h2'⟩
    obtain ⟨T, hTtok, hs4, hq6⟩ := hT
    subst hq6
    obtain ⟨_, _, hb4⟩ := sem_wordB_inv hw4
    subst hs4; subst hs2; subst hrest1; subst htl
    refine ⟨a, b, T, s6, by simp [List.append_assoc], hTtok, ?_, ?_, ?_, ?_, ?_⟩
    · intro ch hch
      simpa using hbchars ch hch
    · rw [boundaryB, ← bne_iff_ne]
      rw [lastOr_none] at hb1
      simpa [atBoundary, List.append_assoc] using hb1
    · rw [boundaryB, ← bne_iff_ne]
      rw [lastOr_none, lastOr_getLast] at hb2
      simpa [atBoundary, List.append_assoc] using hb2
    · rw [boundaryB, ← bne_iff_ne]
      rw [lastOr_none, lastOr_getLast, lastOr_getLast] at hb3
      simpa [atBoundary, List.append_assoc] using hb3
    · rw [boundaryB, ← bne_iff_ne]
      rw [lastOr_none, lastOr_getLast, lastOr_getLast, lastOr_getLast] at hb4
      simpa [atBoundary, List.append_assoc] using hb4
  · rintro ⟨a, b, T, c, htl, hTtok, hnl, hb1, hb2, hb3, hb4⟩
    refine ⟨a, n ++ (b ++ (T ++ c)), by simpa [List.append_assoc] using htl, ?_⟩
    rw [reMatch_ne_nil_iff]
    have hw1 : Sem .wordB (lastOr none a) (n ++ (b ++ (T ++ c)))
        (lastOr none a) (n ++ (b ++ (T ++ c))) := by
      refine .wordB ?_
      rw [atBoundary, bne_iff_ne, lastOr_none]
      simpa [List.append_assoc] using hb1
    have hstr : Sem (.str n) (lastOr none a) (n ++ (b ++ (T ++ c)))
        (lastOr (lastOr none a) n) (b ++ (T ++ c)) :=
      .str ((strMatch_iff ..).2 ⟨rfl, rfl⟩)
    have hw2 : Sem .wordB (lastOr (lastOr none a) n) (b ++ (T ++ c))
        (lastOr (lastOr none a) n) (b ++ (T ++ c)) := by
      refine .wordB ?_
      rw [atBoundary, bne_iff_ne, lastOr_none, lastOr_getLast]
      simpa [List.append_assoc] using hb2
    have hstar : Sem (.clsStar (fun ch => ch ≠ '\n')) (lastOr (lastOr none a) n)
        (b ++ (T ++ c)) (lastOr (lastOr (lastOr none a) n) b) (T ++ c) := by
      refine sem_star_intro b _ _ ?_
      intro ch hch
      simpa using hnl ch hch
    have hw3 : Sem .wordB (lastOr (lastOr (lastOr none a) n) b) (T ++ c)
        (lastOr (lastOr (lastOr none a) n) b) (T ++ c) := by
      refine .wordB ?_
      rw [atBoundary, bne_iff_ne, lastOr_none, lastOr_getLast, lastOr_getLast]
      simpa [List.append_assoc] using hb3
    have hTsem : Sem (.alt (.str "obligatorio".data)
        (.alt (.str "requerido".data) (.str "required".data)))
        (lastOr (lastOr (lastOr none a) n) b) (T ++ c)
        (lastOr (lastOr (lastOr (lastOr none a) n) b) T) c := by
      rcases hTtok with hT | hT | hT
      · subst hT; exact .altL (.str ((strMatch_iff ..).2 ⟨rfl, rfl⟩))
      · subst hT; exact .altR (.altL (.str ((strMatch_iff ..).2 ⟨rfl, rfl⟩)))
      · subst hT; exact .altR (.altR (.str ((strMatch_iff ..).2 ⟨rfl, rfl⟩)))
    have hw4 : Sem .wordB (lastOr (lastOr (lastOr (lastOr none a) n) b) T) c
        (lastOr (lastOr (lastOr (lastOr none a) n) b) T) c := by
      refine .wordB ?_
      rw [atBoundary, bne_iff_ne, lastOr_none, lastOr_getLast, lastOr_getLast, lastOr_getLast]
      simpa [List.append_assoc] using hb4
    exact ⟨_, _, .seq hw1 (.seq hstr (.seq hw2 (.seq hstar
      (.seq hw3 (.seq (.grp hTsem) hw4)))))⟩

/-! ### The construction loop (lines 105-127) -/

theorem foldl_paso_snd (tl : Str) :
    ∀ (campos : List (Str × Str)) (pr : List (Str × Propiedad)) (rq : List Str),
      (campos.foldl (pasoCampo tl) (pr, rq)).2 =
        rq ++ (campos.filter (fun c => esObligatorio c.1 tl)).map Prod.fst := by
  intro campos
  induction campos with
  | nil => intro pr rq; simp
  | cons c cs ih =>
    intro pr rq
    rw [List.foldl_cons, List.filter_cons]
    by_cases h : esObligatorio c.1 tl
    · rw [if_pos h]
      show (cs.foldl (pasoCampo tl) (insertProp pr c.1 _, if esObligatorio c.1 tl then rq ++ [c.1] else rq)).2 = _
      rw [if_pos h, ih]
      simp
    · rw [if_neg (by simpa using h)]
      show (cs.foldl (pasoCampo tl) (insertProp pr c.1 _, if esObligatorio c.1 tl then rq ++ [c.1] else rq)).2 = _
      rw [if_neg h, ih]

theorem lookup_insertProp (k : Str) (v : Propiedad) (n : Str) :
    ∀ m : List (Str × Propiedad),
      (insertProp m k v).lookup n = if n = k then some v else m.lookup n := by
  intro m
  induction m with
  | nil =>
    by_cases h : n = k
    · subst h; simp [insertProp, List.lookup]
    · simp [insertProp, List.lookup, h, beq_eq_false_iff_ne.mpr h]
  | cons kv m ih =>
    obtain ⟨k', v'⟩ := kv
    show (if k' = k then (k', v) :: m else (k', v') :: insertProp m k v).lookup n = _
    by_cases h1 : k' = k
    · subst h1
      rw [if_pos rfl]
      by_cases h2 : n = k'
      · subst h2; simp [List.lookup]
      · simp [List.lookup, h2, beq_eq_false_iff_ne.mpr h2]
    · rw [if_neg h1]
      by_cases h2 : n = k'
      · subst h2
        simp [List.lookup, h1]
      · simp [List.lookup, h2, beq_eq_false_iff_ne.mpr h2, ih]

theorem keys_insertProp (k : Str) (v : Propiedad) :
    ∀ m : List (Str × Propiedad),
      (insertProp m k v).map Prod.fst =
        if k ∈ m.map Prod.fst then m.map Prod.fst else m.map Prod.fst ++ [k] := by
  intro m
  induction m with
  | nil => simp [insertProp]
  | cons kv m ih =>
    obtain ⟨k', v'⟩ := kv
    show (if k' = k then (k', v) :: m else (k', v') :: insertProp m k v).map Prod.fst = _
    by_cases h1 : k' = k
    · subst h1
      simp only [List.map_cons]
      rw [if_pos (List.mem_cons_self ..)]
      simp
    · rw [if_neg h1]
      simp only [List.map_cons, ih, List.mem_cons]
      by_cases h2 : k ∈ m.map Prod.fst
      · simp [h2, Ne.symm h1]
      · simp [h2, Ne.symm h1]

theorem foldl_paso_lookup (tl : Str) :
    ∀ (campos : List (Str × Str)) (pr : List (Str × Propiedad)) (rq : List Str) (n : Str),
      ((campos.foldl (pasoCampo tl) (pr, rq)).1).lookup n =
        ((campos.reverse.find? (fun c => c.1 = n)).map
          (fun c => mkPropiedad c.1 c.2 tl)).or (pr.lookup n) := by
  intro campos
  induction campos with
  | nil => intro pr rq n; simp
  | cons c cs ih =>
    intro pr rq n
    rw [List.foldl_cons]
    show (cs.foldl (pasoCampo tl) (insertProp pr c.1 (mkPropiedad c.1 c.2 tl), _)).1.lookup n = _
    rw [ih, List.reverse_cons, List.find?_append, lookup_insertProp]
    cases hfind : cs.reverse.find? (fun c => c.1 = n) with
    | some d => simp
    | none =>
      simp only [Option.map_none, Option.none_or, List.find?_singleton]
      by_cases h : c.1 = n
      · subst h; simp
      · simp [h, Ne.symm h]

theorem foldl_paso_keys (tl : Str) :
    ∀ (campos : List (Str × Str)) (pr : List (Str × Propiedad)) (rq : List Str),
      ((campos.foldl (pasoCampo tl) (pr, rq)).1).map Prod.fst =
        (campos.map Prod.fst).foldl
          (fun acc k => if k ∈ acc then acc else acc ++ [k]) (pr.map Prod.fst) := by
  intro campos
  induction campos with
  | nil => intro pr rq; simp
  | cons c cs ih =>
    intro pr rq
    rw [List.foldl_cons, List.map_cons, List.foldl_cons]
    show (cs.foldl (pasoCampo tl) (insertProp pr c.1 (mkPropiedad c.1 c.2 tl), _)).1.map Prod.fst = _
    rw [ih, keys_insertProp]

/-- Field-name order of first insertion (Python dict key order). -/
def firstOrder (ks : List Str) : List Str :=
  ks.foldl (fun acc k => if k ∈ acc then acc else acc ++ [k]) []

theorem mem_insFold :
    ∀ (ks : List Str) (acc : List Str) (k : Str),
      (k ∈ ks.foldl (fun acc k => if k ∈ acc then acc else acc ++ [k]) acc) ↔
        k ∈ acc ∨ k ∈ ks := by
  intro ks
  induction ks with
  | nil => intro acc k; simp
  | cons k' ks ih =>
    intro acc k
    rw [List.foldl_cons, ih]
    by_cases h : k' ∈ acc
    · rw [if_pos h]
      constructor
      · rintro (h1 | h1)
        · exact .inl h1
        · exact .inr (List.mem_cons_of_mem _ h1)
      · rintro (h1 | h1)
        · exact .inl h1
        · rcases List.mem_cons.1 h1 with h2 | h2
          · subst h2; exact .inl h
          · exact .inr h2
    · rw [if_neg h]
      simp only [List.mem_append, List.mem_singleton, List.mem_cons]
      tauto

theorem insFold_ne_nil {ks acc : List Str} (h : ks ≠ []) :
    ks.foldl (fun acc k => if k ∈ acc then acc else acc ++ [k]) acc ≠ [] := by
  obtain ⟨k, hk⟩ := List.exists_mem_of_ne_nil ks h
  exact List.ne_nil_of_mem ((mem_insFold ks acc k).2 (.inr hk))

/-- The non-fallback case of `analizar_texto_y_generar_schema`: when some
candidate was detected, the schema is the result of the construction loop. -/
theorem analizar_eq_of_ne_nil {texto : Str} (h : camposDetectados texto ≠ []) :
    analizar_texto_y_generar_schema texto =
      { properties := ((camposDetectados texto).foldl (pasoCampo (pyLower texto)) ([], [])).1,
        required := ((camposDetectados texto).foldl (pasoCampo (pyLower texto)) ([], [])).2 } := by
  have hne : ((camposDetectados texto).foldl (pasoCampo (pyLower texto)) ([], [])).1 ≠ [] := by
    intro hnil
    have := foldl_paso_keys (pyLower texto) (camposDetectados texto) [] []
    rw [hnil] at this
    exact insFold_ne_nil (fun hm => h (List.map_eq_nil_iff.1 hm)) this.symm
  unfold analizar_texto_y_generar_schema
  simp only [List.isEmpty_eq_false.2 hne, Bool.false_eq_true, if_false]

/-! ### The keyword scan as a filter of the dictionary -/

theorem foldl_append_filter {α : Type} (P : α → Bool) :
    ∀ (l : List α) (acc : List α),
      l.foldl (fun cs kv => if P kv then cs ++ [kv] else cs) acc = acc ++ l.filter P := by
  intro l
  induction l with
  | nil => intro acc; simp
  | cons x xs ih =>
    intro acc
    rw [List.foldl_cons, List.filter_cons]
    by_cases h : P x
    · rw [if_pos h, if_pos h, ih]
      simp
    · rw [if_neg h, if_neg h, ih]

/-- The loop of `detectar_campos_por_palabras_clave` keeps, in dictionary
order, exactly the entries whose key occurs as a whole word of the
lower-cased text. -/
theorem detectar_eq_filter (texto : Str) :
    detectar_campos_por_palabras_clave texto =
      palabras_clave.filter (fun kv => (splitWords (pyLower texto)).contains kv.1) := by
  unfold detectar_campos_por_palabras_clave
  rw [foldl_append_filter]
  simp

/-! ### Case-insensitivity -/

theorem toLower_idem (c : Char) : c.toLower.toLower = c.toLower := by
  simp only [Char.toLower]
  by_cases h : c.toNat ≥ 65 ∧ c.toNat ≤ 90
  · rw [if_pos h]
    obtain ⟨h1, h2⟩ := h
    set n := c.toNat with hn
    interval_cases n
    all_goals decide
  · rw [if_neg h, if_neg h]

theorem pyLower_idem (s : Str) : pyLower (pyLower s) = pyLower s := by
  simp only [pyLower, List.map_map]
  exact List.map_congr_left (fun c _ => toLower_idem c)

theorem detectar_pyLower (texto : Str) :
    detectar_campos_por_palabras_clave (pyLower texto) =
      detectar_campos_por_palabras_clave texto := by
  unfold detectar_campos_por_palabras_clave
  rw [pyLower_idem]

/-! ### SentenceChunker (modelled from the spec)

The chunker described in the spec (§4.2) is not part of `src/app.py`;
the definitions below are modelled from the spec's words. -/

/-- Modelled from the spec: the fallback sentence splitter — split after
`.`, `!` or `?` followed by whitespace (`cur` holds the reversed sentence
being accumulated). -/
def splitSentencesAux : Str → Str → List Str
  | cur, [] => if cur.isEmpty then [] else [cur.reverse]
  | cur, c :: cs =>
    if (c = '.' || c = '!' || c = '?') &&
        (match cs.head? with | some d => pySpace d | none => false) then
      (c :: cur).reverse :: splitSentencesAux [] cs
    else splitSentencesAux (c :: cur) cs

/-- Modelled from the spec: split text into sentences. -/
def splitSentences (texto : Str) : List Str := splitSentencesAux [] texto

/-- Modelled from the spec: a sentence's word count, by whitespace splitting. -/
def wordCount (s : Str) : Nat := (splitWords s).length

/-- Modelled from the spec (§3): a chunk of consecutive sentences.  The
spec's opaque fresh `id` is omitted: it carries no information. -/
structure Chunk where
  text : Str
  start_sentence : Nat
  end_sentence : Nat
  word_count : Nat
deriving Repr, DecidableEq

/-- Modelled from the spec (§4.2 step 3): greedily extend the current chunk
(`j` = last included sentence, `acc` = its running word count) while the
next sentence keeps the count at or under `maxWords`.  A sentence whose own
count exceeds `maxWords` is forced into its own chunk. -/
def extendChunk (ws : List Nat) (maxWords : Nat) : Nat → Nat → Nat
  | j, acc =>
    if _ : j + 1 < ws.length ∧ acc + ws.getD (j + 1) 0 ≤ maxWords then
      extendChunk ws maxWords (j + 1) (acc + ws.getD (j + 1) 0)
    else j
termination_by j _ => ws.length - j
decreasing_by
  simp_wf
  omega

/-- Modelled from the spec (§4.2 step 5): walk backward from the last
included sentence `k`, accumulating word counts, until the accumulated
overlap meets `overlapWords` — but never to or before the current chunk's
start `i` (the progress clamp the spec requires in §9). -/
def walkBack (ws : List Nat) (overlapWords : Nat) (i : Nat) : Nat → Nat → Nat
  | k, acc =>
    if k ≤ i + 1 ∨ overlapWords ≤ acc then k
    else walkBack ws overlapWords i (k - 1) (acc + ws.getD (k - 1) 0)
termination_by k _ => k
decreasing_by
  simp_wf
  omega

/-- Modelled from the spec (§4.2): the chunking loop.  `i` is the cursor
(first sentence of the next chunk); each iteration emits one chunk and
advances the cursor by at least one sentence. -/
def chunkLoop (sents : List Str) (ws : List Nat) (maxWords overlapWords : Nat) : Nat → List Chunk
  | i =>
    if h : i < ws.length then
      let j := extendChunk ws maxWords i (ws.getD i 0)
      let ch : Chunk :=
        { text := List.intercalate [' '] ((sents.drop i).take (j + 1 - i)),
          start_sentence := i, end_sentence := j,
          word_count := ((ws.drop i).take (j + 1 - i)).sum }
      let next := max (i + 1)
        (if overlapWords = 0 then j + 1 else walkBack ws overlapWords i j (ws.getD j 0))
      ch :: chunkLoop sents ws maxWords overlapWords next
    else []
termination_by i => ws.length - i
decreasing_by
  simp_wf
  omega

/-- Modelled from the spec: `chunk(text, maxWords, overlapWords)`. -/
def chunk (texto : Str) (maxWords overlapWords : Nat) : List Chunk :=
  let sents := splitSentences texto
  chunkLoop sents (sents.map wordCount) maxWords overlapWords 0

theorem chunkLoop_start_ge (sents : List Str) (ws : List Nat) (maxWords overlapWords : Nat) :
    ∀ (n i : Nat), ws.length - i ≤ n →
      ∀ c ∈ chunkLoop sents ws maxWords overlapWords i, i ≤ c.start_sentence := by
  intro n
  induction n with
  | zero =>
    intro i hn c hc
    rw [chunkLoop] at hc
    split at hc
    · omega
    · cases hc
  | succ n ih =>
    intro i hn c hc
    rw [chunkLoop] at hc
    split at hc
    · rcases List.mem_cons.1 hc with hc | hc
      · subst hc; exact le_refl i
      · have h1 := ih _ (by omega : ws.length - max (i + 1) _ ≤ n) c hc
        calc i ≤ i + 1 := Nat.le_succ i
          _ ≤ max (i + 1) _ := Nat.le_max_left ..
          _ ≤ c.start_sentence := h1
    · cases hc

/-- Modelled from the spec: successive chunks have strictly increasing
start sentences. -/
theorem chunkLoop_chain (sents : List Str) (ws : List Nat) (maxWords overlapWords : Nat) :
    ∀ (n i : Nat), ws.length - i ≤ n →
      List.Chain' (fun a b => a.start_sentence < b.start_sentence)
        (chunkLoop sents ws maxWords overlapWords i) := by
  intro n
  induction n with
  | zero =>
    intro i hn
    rw [chunkLoop]
    split
    · omega
    · exact List.chain'_nil
  | succ n ih =>
    intro i hn
    rw [chunkLoop]
    split
    · rw [List.chain'_cons']
      constructor
      · intro b hb
        have hmem := List.mem_of_mem_head? hb
        have h1 := chunkLoop_start_ge sents ws maxWords overlapWords n _ (by omega) b hmem
        show i < b.start_sentence
        calc i < i + 1 := Nat.lt_succ_self i
          _ ≤ max (i + 1) _ := Nat.le_max_left ..
          _ ≤ b.start_sentence := h1
      · exact ih _ (by omega)
    · exact List.chain'_nil

/-! ### Shared helpers for the claims -/

/-- The fallback case of `analizar_texto_y_generar_schema` (lines 129-137). -/
theorem analizar_eq_fallback {texto : Str} (hc : camposDetectados texto = []) :
    analizar_texto_y_generar_schema texto =
      { properties := [("ejemplo".data, propEjemplo)], required := ["ejemplo".data] } := by
  unfold analizar_texto_y_generar_schema
  rw [hc]
  rfl

/-! ### Claim C1 -/

/-- The concrete input of the spec's scenario. -/
def c1Text : Str :=
  "User with fields: name (string), age (integer), email (email). name and email are required.".data

/-- C1 (counterexample): on the spec's concrete scenario the schema's
properties are NOT name/age/email — the `name: type` pattern matches
"fields: name", so the only property key is `fields`, and the required
list is `["fields"]`, not `["name", "email"]`. -/
theorem c1_counterexample :
    (analizar_texto_y_generar_schema c1Text).properties.map Prod.fst = ["fields".data] ∧
    (analizar_texto_y_generar_schema c1Text).required = ["fields".data] := by
  exact ⟨by decide, by decide⟩

/-- C1 (amended): on the spec's scenario, `(\w+)\s*:\s*(\w+)` matches
`fields: name` (the only colon), so the schema has the single property
`fields` of type string (raw type `name` is unknown), marked required
because `fields` is followed on the same line by `required`. -/
theorem c1_amended :
    analizar_texto_y_generar_schema c1Text =
      { properties := [("fields".data,
          { type := "string".data, format := none, items := none,
            description := "Campo fields (obligatorio)".data })],
        required := ["fields".data] } := by
  decide

/-! ### Claim C2 -/

/-- C2 (counterexample): on `"edad: int\nrequired"` the field `edad` is
detected and the claim's condition holds — `edad` is followed, later in the
text (on the next line), by the word-bounded token `required` — yet the
field is not marked required: the `.` of the search does not cross the
newline. -/
theorem c2_counterexample :
    "edad".data ∈ (camposDetectados "edad: int\nrequired".data).map Prod.fst ∧
    RequiredAnywhere "edad".data (pyLower "edad: int\nrequired".data) ∧
    "edad".data ∉ (analizar_texto_y_generar_schema "edad: int\nrequired".data).required := by
  refine ⟨by decide, ⟨[], ": int\n".data, "required".data, [],
    by decide, .inr (.inr rfl), by decide, by decide, by decide, by decide⟩, by decide⟩

/-- C2 (amended): a detected field is marked required exactly when the
lower-cased text contains the word-bounded field name followed — with no
newline in between, i.e. on the same line — by one of the word-bounded
tokens obligatorio/requerido/required.  A token on a later line does not
suffice. -/
theorem c2_required_iff_sameLine (texto nombre : Str)
    (h : nombre ∈ (camposDetectados texto).map Prod.fst) :
    nombre ∈ (analizar_texto_y_generar_schema texto).required ↔
      RequiredSameLine nombre (pyLower texto) := by
  have hne : camposDetectados texto ≠ [] := by
    intro hnil
    rw [hnil] at h
    simp at h
  rw [analizar_eq_of_ne_nil hne]
  show nombre ∈ ((camposDetectados texto).foldl (pasoCampo (pyLower texto)) ([], [])).2 ↔ _
  rw [foldl_paso_snd, ← esObligatorio_iff]
  simp only [List.nil_append, List.mem_map, List.mem_filter]
  constructor
  · rintro ⟨c, ⟨_, hc2⟩, hc3⟩
    subst hc3
    exact hc2
  · intro hob
    obtain ⟨c, hc, hceq⟩ := List.mem_map.1 h
    exact ⟨c, ⟨hc, by rw [hceq]; exact hob⟩, hceq⟩

/-- C2 witness: a concrete instance of the amended equivalence. -/
theorem c2_witness :
    "edad".data ∈ (camposDetectados "edad: int requerido".data).map Prod.fst ∧
    ("edad".data ∈ (analizar_texto_y_generar_schema "edad: int requerido".data).required ↔
      RequiredSameLine "edad".data (pyLower "edad: int requerido".data)) :=
  ⟨by decide, c2_required_iff_sameLine "edad: int requerido".data "edad".data (by decide)⟩

/-! ### Claim C3 -/

/-- C3: `analizar_texto_y_generar_schema` is a total function, and on every
input on which neither the patterns nor the keyword scan detect any field
(the empty string included) it returns the fallback schema: the single
property `ejemplo` of type string, whose name is the whole required list. -/
theorem c3_fallback (texto : Str)
    (h1 : patternCandidates (pyLower texto) = [])
    (h2 : detectar_campos_por_palabras_clave texto = []) :
    analizar_texto_y_generar_schema texto =
      { properties := [("ejemplo".data, propEjemplo)], required := ["ejemplo".data] } := by
  have hc : camposDetectados texto = [] := by
    unfold camposDetectados
    rw [h1]
    simpa using h2
  exact analizar_eq_fallback hc

/-- C3 witness: the empty string detects nothing and gets the fallback. -/
theorem c3_witness :
    patternCandidates (pyLower "".data) = [] ∧
    detectar_campos_por_palabras_clave "".data = [] ∧
    analizar_texto_y_generar_schema "".data =
      { properties := [("ejemplo".data, propEjemplo)], required := ["ejemplo".data] } :=
  ⟨by decide, by decide, c3_fallback "".data (by decide) (by decide)⟩

/-! ### Claim C4 -/

def c4Text : Str := "name: string, name: int, name is required".data

/-- C4 (counterexample): the required list is NOT a set — when the same name
is detected twice and has an obligatory match, it is appended once per
detection. -/
theorem c4_counterexample :
    (analizar_texto_y_generar_schema c4Text).required = ["name".data, "name".data] := by
  decide

/-- C4 (amended): for every input text — when at least one candidate is
detected, the required list contains, in detection order, one entry per
detected candidate whose name has an obligatory match, so a name can
appear more than once, and as a set it holds exactly the detected names
with at least one obligatory match; when no candidate is detected, the
required list is the fallback list `["ejemplo"]`. -/
theorem c4_required_characterisation (texto : Str) :
    (camposDetectados texto = [] →
      (analizar_texto_y_generar_schema texto).required = ["ejemplo".data]) ∧
    (camposDetectados texto ≠ [] →
      (analizar_texto_y_generar_schema texto).required =
        ((camposDetectados texto).filter
          (fun c => esObligatorio c.1 (pyLower texto))).map Prod.fst ∧
      ∀ n, n ∈ (analizar_texto_y_generar_schema texto).required ↔
        ((∃ t, (n, t) ∈ camposDetectados texto) ∧
          esObligatorio n (pyLower texto) = true)) := by
  constructor
  · intro h
    rw [analizar_eq_fallback h]
  · intro h
    rw [analizar_eq_of_ne_nil h]
    constructor
    · show ((camposDetectados texto).foldl (pasoCampo (pyLower texto)) ([], [])).2 = _
      rw [foldl_paso_snd]
      simp
    · intro n
      show n ∈ ((camposDetectados texto).foldl (pasoCampo (pyLower texto)) ([], [])).2 ↔ _
      rw [foldl_paso_snd]
      simp only [List.nil_append, List.mem_map, List.mem_filter]
      constructor
      · rintro ⟨c, ⟨hc1, hc2⟩, hc3⟩
        subst hc3
        exact ⟨⟨c.2, hc1⟩, hc2⟩
      · rintro ⟨⟨t, ht⟩, hob⟩
        exact ⟨(n, t), ⟨ht, hob⟩, rfl⟩

/-- C4 witness: the amended characterisation at concrete inputs, exercising
both the fallback branch (nothing detected on `""`) and the detection
branch (duplicate detections of `name` on `c4Text`). -/
theorem c4_witness :
    (camposDetectados "".data = [] ∧
      (analizar_texto_y_generar_schema "".data).required = ["ejemplo".data]) ∧
    (camposDetectados c4Text ≠ [] ∧
      (analizar_texto_y_generar_schema c4Text).required =
        ((camposDetectados c4Text).filter
          (fun c => esObligatorio c.1 (pyLower c4Text))).map Prod.fst) :=
  ⟨⟨by decide, (c4_required_characterisation "".data).1 (by decide)⟩,
    ⟨by decide, ((c4_required_characterisation c4Text).2 (by decide)).1⟩⟩

/-! ### Claim C5 -/

/-- C5: last-write-wins — the property stored under a name is built from the
last detection of that name, while the key order is the order of first
insertion. -/
theorem c5_last_write_wins (texto : Str) (h : camposDetectados texto ≠ []) :
    (∀ n, ((analizar_texto_y_generar_schema texto).properties).lookup n =
      ((camposDetectados texto).reverse.find? (fun c => c.1 = n)).map
        (fun c => mkPropiedad c.1 c.2 (pyLower texto))) ∧
    (analizar_texto_y_generar_schema texto).properties.map Prod.fst =
      firstOrder ((camposDetectados texto).map Prod.fst) := by
  rw [analizar_eq_of_ne_nil h]
  constructor
  · intro n
    show (((camposDetectados texto).foldl (pasoCampo (pyLower texto)) ([], [])).1).lookup n = _
    rw [foldl_paso_lookup]
    simp
  · show (((camposDetectados texto).foldl (pasoCampo (pyLower texto)) ([], [])).1).map Prod.fst = _
    rw [foldl_paso_keys]
    rfl

def c5Text : Str := "x: string, x: int".data

/-- C5 witness: on an input detecting `x` twice, lookup gives the last
detection's property and the key order is first-insertion order. -/
theorem c5_witness :
    camposDetectados c5Text ≠ [] ∧
    ((analizar_texto_y_generar_schema c5Text).properties).lookup "x".data =
      ((camposDetectados c5Text).reverse.find? (fun c => c.1 = "x".data)).map
        (fun c => mkPropiedad c.1 c.2 (pyLower c5Text)) ∧
    (analizar_texto_y_generar_schema c5Text).properties.map Prod.fst =
      firstOrder ((camposDetectados c5Text).map Prod.fst) :=
  ⟨by decide, (c5_last_write_wins c5Text (by decide)).1 "x".data,
    (c5_last_write_wins c5Text (by decide)).2⟩

/-! ### Claim C6 -/

/-- The synonym table exactly as claim 6 enumerates it: for each raw type
the (type, format, items) triple of the resulting property.  The raw
tokens `integer` and `boolean` are NOT in this enumeration. -/
def c6ClaimTable : List (Str × (Str × Option Str × Option Str)) :=
  [("texto".data, ("string".data, none, none)),
   ("cadena".data, ("string".data, none, none)),
   ("string".data, ("string".data, none, none)),
   ("str".data, ("string".data, none, none)),
   ("numero".data, ("number".data, none, none)),
   ("float".data, ("number".data, none, none)),
   ("decimal".data, ("number".data, none, none)),
   ("entero".data, ("integer".data, none, none)),
   ("int".data, ("integer".data, none, none)),
   ("booleano".data, ("boolean".data, none, none)),
   ("bool".data, ("boolean".data, none, none)),
   ("fecha".data, ("string".data, some "date".data, none)),
   ("date".data, ("string".data, some "date".data, none)),
   ("email".data, ("string".data, some "email".data, none)),
   ("correo".data, ("string".data, some "email".data, none)),
   ("url".data, ("string".data, some "uri".data, none)),
   ("lista".data, ("array".data, none, some "string".data)),
   ("arreglo".data, ("array".data, none, some "string".data)),
   ("array".data, ("array".data, none, some "string".data)),
   ("objeto".data, ("object".data, none, none)),
   ("object".data, ("object".data, none, none))]

/-- The claim's mapping: its table, defaulting to type string. -/
def c6ClaimShape (tipo : Str) : Str × Option Str × Option Str :=
  (c6ClaimTable.lookup tipo).getD ("string".data, none, none)

/-- The amended table: the claim's entries plus the two self-mapping raw
tokens the code also accepts, `integer` and `boolean`. -/
def c6AmendedTable : List (Str × (Str × Option Str × Option Str)) :=
  c6ClaimTable ++
    [("integer".data, ("integer".data, none, none)),
     ("boolean".data, ("boolean".data, none, none))]

def c6AmendedShape (tipo : Str) : Str × Option Str × Option Str :=
  (c6AmendedTable.lookup tipo).getD ("string".data, none, none)

/-- C6 (counterexample): the candidate `(total, integer)` is detected on
`"total: integer"`; the code maps raw type `integer` to type integer, while
the claim's table does not contain `integer` so the claim predicts the
default, type string. -/
theorem c6_counterexample :
    ("total".data, "integer".data) ∈ camposDetectados "total: integer".data ∧
    (mkPropiedad "total".data "integer".data (pyLower "total: integer".data)).type
      = "integer".data ∧
    c6ClaimShape "integer".data = ("string".data, none, none) :=
  ⟨by decide, by decide, by decide⟩

/-- C6 (amended): for every candidate, the (type, format, items) triple of
the built property is the claim's table extended with the self-mapping
entries `integer` and `boolean`; raw types outside the table default to
type string. -/
theorem c6_amended (nombre texto_lower tipo : Str) :
    ((mkPropiedad nombre tipo texto_lower).type,
     (mkPropiedad nombre tipo texto_lower).format,
     (mkPropiedad nombre tipo texto_lower).items) = c6AmendedShape tipo := by
  by_cases h1 : tipo = "texto".data
  · subst h1; rfl
  by_cases h2 : tipo = "cadena".data
  · subst h2; rfl
  by_cases h3 : tipo = "string".data
  · subst h3; rfl
  by_cases h4 : tipo = "str".data
  · subst h4; rfl
  by_cases h5 : tipo = "numero".data
  · subst h5; rfl
  by_cases h6 : tipo = "float".data
  · subst h6; rfl
  by_cases h7 : tipo = "decimal".data
  · subst h7; rfl
  by_cases h8 : tipo = "entero".data
  · subst h8; rfl
  by_cases h9 : tipo = "int".data
  · subst h9; rfl
  by_cases h10 : tipo = "integer".data
  · subst h10; rfl
  by_cases h11 : tipo = "booleano".data
  · subst h11; rfl
  by_cases h12 : tipo = "bool".data
  · subst h12; rfl
  by_cases h13 : tipo = "boolean".data
  · subst h13; rfl
  by_cases h14 : tipo = "fecha".data
  · subst h14; rfl
  by_cases h15 : tipo = "date".data
  · subst h15; rfl
  by_cases h16 : tipo = "email".data
  · subst h16; rfl
  by_cases h17 : tipo = "correo".data
  · subst h17; rfl
  by_cases h18 : tipo = "url".data
  · subst h18; rfl
  by_cases h19 : tipo = "array".data
  · subst h19; rfl
  by_cases h20 : tipo = "lista".data
  · subst h20; rfl
  by_cases h21 : tipo = "arreglo".data
  · subst h21; rfl
  by_cases h22 : tipo = "objeto".data
  · subst h22; rfl
  by_cases h23 : tipo = "object".data
  · subst h23; rfl
  simp [mkPropiedad, c6AmendedShape, c6AmendedTable, c6ClaimTable, tipo_mapping,
    List.lookup, h1, h2, h3, h4, h5, h6, h7, h8, h9, h10, h11, h12, h13, h14, h15, h16, h17, h18, h19, h20, h21, h22, h23,
    beq_eq_false_iff_ne.mpr h1,
    beq_eq_false_iff_ne.mpr h2,
    beq_eq_false_iff_ne.mpr h3,
    beq_eq_false_iff_ne.mpr h4,
    beq_eq_false_iff_ne.mpr h5,
    beq_eq_false_iff_ne.mpr h6,
    beq_eq_false_iff_ne.mpr h7,
    beq_eq_false_iff_ne.mpr h8,
    beq_eq_false_iff_ne.mpr h9,
    beq_eq_false_iff_ne.mpr h10,
    beq_eq_false_iff_ne.mpr h11,
    beq_eq_false_iff_ne.mpr h12,
    beq_eq_false_iff_ne.mpr h13,
    beq_eq_false_iff_ne.mpr h14,
    beq_eq_false_iff_ne.mpr h15,
    beq_eq_false_iff_ne.mpr h16,
    beq_eq_false_iff_ne.mpr h17,
    beq_eq_false_iff_ne.mpr h18,
    beq_eq_false_iff_ne.mpr h19,
    beq_eq_false_iff_ne.mpr h20,
    beq_eq_false_iff_ne.mpr h21,
    beq_eq_false_iff_ne.mpr h22,
    beq_eq_false_iff_ne.mpr h23]

/-! ### Claim C7 -/

/-- C7 (counterexample): the keyword dictionary is Spanish — it has no
entries `name`, `age`, `price`, `active` as the claim exemplifies, so on
`"name age price active"` the scan emits nothing and the fallback schema is
produced instead of the claimed four candidates. -/
theorem c7_counterexample :
    camposDetectados "name age price active".data = [] ∧
    List.lookup "name".data palabras_clave = none ∧
    List.lookup "age".data palabras_clave = none ∧
    List.lookup "price".data palabras_clave = none ∧
    List.lookup "active".data palabras_clave = none ∧
    (analizar_texto_y_generar_schema "name age price active".data).properties.map Prod.fst
      = ["ejemplo".data] :=
  ⟨by decide, by decide, by decide, by decide, by decide, by decide⟩

/-- C7 (amended): the keyword scan runs exactly when the patterns produce
zero candidates; it keeps, in dictionary order, exactly the entries whose
key equals some whitespace-separated word of the lower-cased text (exact
token match, no stemming); sample entries: nombre, edad, precio, email,
activo. -/
theorem c7_keyword_scan (texto : Str) :
    (patternCandidates (pyLower texto) ≠ [] →
      camposDetectados texto = patternCandidates (pyLower texto)) ∧
    (patternCandidates (pyLower texto) = [] →
      camposDetectados texto =
        palabras_clave.filter (fun kv => (splitWords (pyLower texto)).contains kv.1)) ∧
    List.lookup "nombre".data palabras_clave = some "string".data ∧
    List.lookup "edad".data palabras_clave = some "integer".data ∧
    List.lookup "precio".data palabras_clave = some "number".data ∧
    List.lookup "email".data palabras_clave = some "email".data ∧
    List.lookup "activo".data palabras_clave = some "boolean".data := by
  refine ⟨?_, ?_, by decide, by decide, by decide, by decide, by decide⟩
  · intro h
    unfold camposDetectados
    rw [if_neg (by simpa using h)]
  · intro h
    unfold camposDetectados
    rw [h, detectar_eq_filter]
    rfl

/-- C7 witness: a concrete instance of the keyword-scan characterisation. -/
theorem c7_witness :
    patternCandidates (pyLower "el precio y el nombre".data) = [] ∧
    camposDetectados "el precio y el nombre".data =
      palabras_clave.filter (fun kv =>
        (splitWords (pyLower "el precio y el nombre".data)).contains kv.1) :=
  ⟨by decide, (c7_keyword_scan "el precio y el nombre".data).2.1 (by decide)⟩

/-! ### Claim C8 -/

/-- C8: the chunker terminates on every input (it is a total Lean function)
and successive chunks have strictly increasing `start_sentence`, for every
`maxWords` and `overlapWords` — the cursor advances by at least one
sentence per iteration even when the overlap is large. -/
theorem c8_chunk_progress (texto : Str) (maxWords overlapWords : Nat) :
    List.Chain' (fun a b => a.start_sentence < b.start_sentence)
      (chunk texto maxWords overlapWords) := by
  unfold chunk
  exact chunkLoop_chain _ _ maxWords overlapWords
    ((splitSentences texto).map wordCount).length 0 (by omega)

/-! ### Claim C9 -/

/-- C9: every name in the required list is a key of the properties map, on
the pattern/keyword path as well as on the fallback path. -/
theorem c9_required_subset_properties (texto n : Str)
    (h : n ∈ (analizar_texto_y_generar_schema texto).required) :
    n ∈ (analizar_texto_y_generar_schema texto).properties.map Prod.fst := by
  by_cases hc : camposDetectados texto = []
  · rw [analizar_eq_fallback hc] at h ⊢
    simpa using h
  · rw [analizar_eq_of_ne_nil hc] at h ⊢
    have h2 : n ∈ ((camposDetectados texto).foldl (pasoCampo (pyLower texto)) ([], [])).2 := h
    rw [foldl_paso_snd] at h2
    simp only [List.nil_append, List.mem_map, List.mem_filter] at h2
    obtain ⟨c, ⟨hc1, _⟩, hc3⟩ := h2
    show n ∈ (((camposDetectados texto).foldl (pasoCampo (pyLower texto)) ([], [])).1).map Prod.fst
    rw [foldl_paso_keys]
    simp only [List.map_nil]
    exact (mem_insFold _ _ n).2 (.inr (List.mem_map.2 ⟨c, hc1, hc3⟩))

/-- C9 witness: a concrete input with a required field. -/
theorem c9_witness :
    "edad".data ∈ (analizar_texto_y_generar_schema "la edad: int es requerido aqui".data).required ∧
    "edad".data ∈
      (analizar_texto_y_generar_schema "la edad: int es requerido aqui".data).properties.map
        Prod.fst :=
  ⟨by decide,
    c9_required_subset_properties "la edad: int es requerido aqui".data "edad".data (by decide)⟩

/-! ### Claim C10 -/

/-- C10: the whole function is case-insensitive — lower-casing the input
first does not change the result, since the patterns, the keyword scan and
the required search all work on the lower-cased text. -/
theorem c10_case_insensitive (texto : Str) :
    analizar_texto_y_generar_schema texto =
      analizar_texto_y_generar_schema (pyLower texto) := by
  simp only [analizar_texto_y_generar_schema, camposDetectados, pyLower_idem, detectar_pyLower]

end CreadorJson
